import Mathlib

/-!
Shallow embedding of the Intcode virtual machine of `advent-of-code-2019`
(`src/intcode.rs`, `src/intcode/memory.rs`) and of the amplifier-chain
selection logic of `src/bin/day07.rs`.

Rust `i32` cell values are modelled as unbounded `Int` (the programs under
study stay far from overflow); `usize` addresses are modelled as `Nat`, with
the Rust cast `value as usize` of an `i32` modelled as reduction modulo
`2 ^ 64`.  Rust `assert!`/`panic!` aborts are modelled as `Except` errors
carrying exactly the data the corresponding Rust diagnostic interpolates.
Rust `/` and `%` on `i32` truncate toward zero, hence `Int.tdiv` / `Int.tmod`.
-/

namespace Intcode

/-- Intcode memory value (`type Value = i32`). -/
abbrev Value := Int

/-- Intcode memory address (`type Address = usize`). -/
abbrev Address := Nat

/-- The Rust cast `value as Address` (`i32` to `usize`): sign-extend and
reinterpret, i.e. reduce modulo `2 ^ 64`. -/
def asAddress (v : Value) : Address := (v % (2 : Int) ^ 64).toNat

/-- Fatal aborts of the VM, one constructor per `assert!`/`panic!`/`.expect`
site, carrying the data interpolated into the Rust diagnostic. -/
inductive Err where
  /-- `Reading from/Writing to memory out of bounds ({addr} >= {size})` -/
  | outOfBounds (addr : Address) (size : Nat)
  /-- slice indexing `mem[i]` past the end of the decoded window -/
  | sliceIndex (i : Nat)
  /-- reversed slice range `self.0[addr..addr_end]` with `addr_end < addr`
  (`slice index starts at {first} but ends at {last}`), reachable in
  `get_slice` when the `usize` addition `addr + len` wraps around -/
  | sliceRangeReversed (first : Nat) (last : Nat)
  /-- `Unknown parameter mode {mode} for parameter {n} in instruction {instr}` -/
  | unknownParamMode (mode : Value) (n : Nat) (instr : Value)
  /-- `Unknown opcode {opcode}` -/
  | unknownOpcode (opcode : Value)
  /-- `Can't store to immediate mode parameter` -/
  | storeToImmediate
  /-- `No input values left` -/
  | inputExhausted
  /-- a bare `assert!` with no message (the noun/verb range check) -/
  | assertFailed
deriving Repr, DecidableEq

/-- `struct Memory(Vec<Value>)`. -/
structure Memory where
  data : List Value
deriving Repr, DecidableEq

/-- `Memory::size`. -/
def Memory.size (m : Memory) : Nat := m.data.length

/-- `Memory::get`: asserts `addr < size`, then reads. -/
def Memory.get (m : Memory) (addr : Address) : Except Err Value :=
  if addr < m.size then .ok (m.data.getD addr 0)
  else .error (.outOfBounds addr m.size)

/-- `Memory::get_slice`: `addr + len` is `usize` arithmetic, so it wraps
modulo `2 ^ 64` (release-profile semantics; a debug build instead panics
right at the addition when it overflows, so the call aborts at that corner
in either profile).  The wrapped end is clamped to `size`, the start is
asserted in bounds, and the slice `self.0[addr..addr_end]` panics when the
wrapped end lies before the start. -/
def Memory.get_slice (m : Memory) (addr : Address) (len : Nat) :
    Except Err (List Value) :=
  let addr_end := min ((addr + len) % 2 ^ 64) m.size
  if addr < m.size then
    if addr ≤ addr_end then .ok ((m.data.drop addr).take (addr_end - addr))
    else .error (.sliceRangeReversed addr addr_end)
  else .error (.outOfBounds addr m.size)

/-- `Memory::set`: asserts `addr < size`, then writes in place. -/
def Memory.set (m : Memory) (addr : Address) (value : Value) :
    Except Err Memory :=
  if addr < m.size then .ok ⟨m.data.set addr value⟩
  else .error (.outOfBounds addr m.size)

/-- Indexing `mem[i]` into the decoded instruction window (a Rust slice
index, which panics past the end). -/
def sliceGet (mem : List Value) (i : Nat) : Except Err Value :=
  if h : i < mem.length then .ok (mem.get ⟨i, h⟩) else .error (.sliceIndex i)

/-- `enum Param`. -/
inductive Param where
  | position (addr : Address)
  | immediate (value : Value)
deriving Repr, DecidableEq

/-- `Param::parse`: mode digit `mem[0] / (10^n * 100) % 10` selects the mode
(Rust truncating division), any digit other than 0/1 is fatal. -/
def Param.parse (mem : List Value) (n : Nat) : Except Err Param := do
  let c0 ← sliceGet mem 0
  let dv : Value := (10 : Value) ^ n * 100
  let mode := (c0.tdiv dv).tmod 10
  if mode = 0 then
    let p ← sliceGet mem (1 + n)
    pure (Param.position (asAddress p))
  else if mode = 1 then
    let v ← sliceGet mem (1 + n)
    pure (Param.immediate v)
  else
    .error (.unknownParamMode mode n c0)

/-- `Param::fetch`. -/
def Param.fetch (p : Param) (memory : Memory) : Except Err Value :=
  match p with
  | .position addr => memory.get addr
  | .immediate value => .ok value

/-- `Param::store`. -/
def Param.store (p : Param) (memory : Memory) (value : Value) :
    Except Err Memory :=
  match p with
  | .position addr => memory.set addr value
  | .immediate _ => .error .storeToImmediate

/-- `enum Instruction`. -/
inductive Instruction where
  | add (p1 p2 p3 : Param)
  | multiply (p1 p2 p3 : Param)
  | input (p1 : Param)
  | output (p1 : Param)
  | jumpIfNotZero (p1 p2 : Param)
  | jumpIfZero (p1 p2 : Param)
  | lessThan (p1 p2 p3 : Param)
  | equals (p1 p2 p3 : Param)
  | done
deriving Repr, DecidableEq

/-- `Instruction::parse`: dispatch on `mem[0] % 100` (Rust truncating
remainder); an opcode not in the table is the fatal `Unknown opcode`. -/
def Instruction.parse (mem : List Value) : Except Err Instruction := do
  let c0 ← sliceGet mem 0
  let op := c0.tmod 100
  if op = 1 then
    pure (Instruction.add (← Param.parse mem 0) (← Param.parse mem 1)
      (← Param.parse mem 2))
  else if op = 2 then
    pure (Instruction.multiply (← Param.parse mem 0) (← Param.parse mem 1)
      (← Param.parse mem 2))
  else if op = 3 then
    pure (Instruction.input (← Param.parse mem 0))
  else if op = 4 then
    pure (Instruction.output (← Param.parse mem 0))
  else if op = 5 then
    pure (Instruction.jumpIfNotZero (← Param.parse mem 0) (← Param.parse mem 1))
  else if op = 6 then
    pure (Instruction.jumpIfZero (← Param.parse mem 0) (← Param.parse mem 1))
  else if op = 7 then
    pure (Instruction.lessThan (← Param.parse mem 0) (← Param.parse mem 1)
      (← Param.parse mem 2))
  else if op = 8 then
    pure (Instruction.equals (← Param.parse mem 0) (← Param.parse mem 1)
      (← Param.parse mem 2))
  else if op = 99 then
    pure Instruction.done
  else
    .error (.unknownOpcode op)

/-- `struct Vm` (synchronous variant of `src/intcode.rs`): memory,
instruction pointer, input queue, output log, done flag. -/
structure Vm where
  memory : Memory
  ip : Address
  input : List Value
  output : List Value
  done : Bool
deriving Repr, DecidableEq

/-- `Vm::new` / `From<Memory> for Vm`. -/
def Vm.new (program : Memory) : Vm :=
  { memory := program, ip := 0, input := [], output := [], done := false }

/-- `Instruction::execute` (synchronous variant). -/
def Instruction.execute (i : Instruction) (vm : Vm) : Except Err Vm :=
  match i with
  | .add p1 p2 p3 => do
      let a ← p1.fetch vm.memory
      let b ← p2.fetch vm.memory
      let m ← p3.store vm.memory (a + b)
      pure { vm with memory := m, ip := vm.ip + 4 }
  | .multiply p1 p2 p3 => do
      let a ← p1.fetch vm.memory
      let b ← p2.fetch vm.memory
      let m ← p3.store vm.memory (a * b)
      pure { vm with memory := m, ip := vm.ip + 4 }
  | .input p1 =>
      match vm.input with
      | [] => .error .inputExhausted
      | v :: rest => do
          let m ← p1.store vm.memory v
          pure { vm with memory := m, input := rest, ip := vm.ip + 2 }
  | .output p1 => do
      let v ← p1.fetch vm.memory
      pure { vm with output := vm.output ++ [v], ip := vm.ip + 2 }
  | .jumpIfNotZero p1 p2 => do
      let c ← p1.fetch vm.memory
      if c ≠ 0 then
        let t ← p2.fetch vm.memory
        pure { vm with ip := asAddress t }
      else
        pure { vm with ip := vm.ip + 3 }
  | .jumpIfZero p1 p2 => do
      let c ← p1.fetch vm.memory
      if c = 0 then
        let t ← p2.fetch vm.memory
        pure { vm with ip := asAddress t }
      else
        pure { vm with ip := vm.ip + 3 }
  | .lessThan p1 p2 p3 => do
      let a ← p1.fetch vm.memory
      let b ← p2.fetch vm.memory
      let m ← p3.store vm.memory (if a < b then 1 else 0)
      pure { vm with memory := m, ip := vm.ip + 4 }
  | .equals p1 p2 p3 => do
      let a ← p1.fetch vm.memory
      let b ← p2.fetch vm.memory
      let m ← p3.store vm.memory (if a = b then 1 else 0)
      pure { vm with memory := m, ip := vm.ip + 4 }
  | .done => pure { vm with done := true }

/-- `Vm::step`: decode a 4-cell window at the instruction pointer and
execute the decoded instruction. -/
def Vm.step (vm : Vm) : Except Err Vm := do
  let window ← vm.memory.get_slice vm.ip 4
  let instruction ← Instruction.parse window
  instruction.execute vm

/-- `step` iterated `n` times. -/
def Vm.stepN : Nat → Vm → Except Err Vm
  | 0, vm => .ok vm
  | n + 1, vm => vm.step >>= Vm.stepN n

/-- `Vm::run`: repeat `step` until the done flag is set, with explicit fuel
bounding the number of loop iterations (the Rust loop has none). -/
def Vm.run : Nat → Vm → Except Err Vm
  | 0, vm => .ok vm
  | fuel + 1, vm => if vm.done then .ok vm else vm.step >>= Vm.run fuel

/-- `Vm::noun`: `assert!(noun <= 99)`, then write to address 1. -/
def Vm.noun (vm : Vm) (noun : Value) : Except Err Vm :=
  if noun ≤ 99 then do
    let m ← vm.memory.set 1 noun
    pure { vm with memory := m }
  else .error .assertFailed

/-- `Vm::verb`: `assert!(verb <= 99)`, then write to address 2. -/
def Vm.verb (vm : Vm) (verb : Value) : Except Err Vm :=
  if verb ≤ 99 then do
    let m ← vm.memory.set 2 verb
    pure { vm with memory := m }
  else .error .assertFailed

/-! ## Amplifier-chain selection (`src/bin/day07.rs`)

`AmplifierChain::permutate` maps the permutation generator's deterministic
output over the chain evaluation (`run_single_result`); the chain evaluation
itself runs concurrently over channels, so it is abstracted here as a
function `signal` from a phase permutation to its final signal value.
`AmplifierChain::permutate_max` folds the selection step over that stream. -/

/-- One step of the `fold` in `AmplifierChain::permutate_max`: keep the
accumulator only when the candidate thrust is strictly smaller. -/
def permutateMaxStep (res : Option (List Value × Value))
    (pv : List Value × Value) : Option (List Value × Value) :=
  match res with
  | some best => if pv.2 < best.2 then some best else some pv
  | none => some pv

/-- `AmplifierChain::permutate`: the stream of `(phases, thrust)` pairs in
the permutation generator's deterministic order. -/
def permutate (signal : List Value → Value) (perms : List (List Value)) :
    List (List Value × Value) :=
  perms.map fun p => (p, signal p)

/-- `AmplifierChain::permutate_max`: fold the selection step over the
stream, starting from `None`. -/
def permutate_max (signal : List Value → Value) (perms : List (List Value)) :
    Option (List Value × Value) :=
  (permutate signal perms).foldl permutateMaxStep none

/-- An emptied input queue (`VecDeque::clear`). -/
def clearedQueue (_ : List Value) : List Value := []

/-- `Vm::input` (the setter): clear the queue, then extend it with the
given values. -/
def Vm.setInput (vm : Vm) (values : List Value) : Vm :=
  { vm with input := clearedQueue vm.input ++ values }

/-! ## Helper lemmas -/

/-- Folding the day07 selection step from a defined accumulator yields the
element of maximal second component that occurs LAST among the maximal ones
(a candidate replaces the accumulator whenever it is not strictly worse). -/
theorem foldl_permutateMaxStep_spec (l : List (List Value × Value))
    (a : List Value × Value) :
    ∃ b, l.foldl permutateMaxStep (some a) = some b ∧
      a.2 ≤ b.2 ∧ (∀ x ∈ l, x.2 ≤ b.2) ∧
      ((b = a ∧ ∀ x ∈ l, x.2 < a.2) ∨
        ∃ l1 l2, l = l1 ++ b :: l2 ∧ ∀ x ∈ l2, x.2 < b.2) := by
  induction l generalizing a with
  | nil => exact ⟨a, rfl, le_refl _, by simp, Or.inl ⟨rfl, by simp⟩⟩
  | cons x xs ih =>
    by_cases hlt : x.2 < a.2
    · obtain ⟨b, hfold, hab, hall, hlast⟩ := ih a
      refine ⟨b, ?_, hab, ?_, ?_⟩
      · simpa [permutateMaxStep, hlt] using hfold
      · intro y hy
        rcases List.mem_cons.mp hy with h | h
        · exact le_of_lt (lt_of_lt_of_le (h ▸ hlt) hab)
        · exact hall y h
      · rcases hlast with ⟨hba, hxs⟩ | ⟨l1, l2, heq, hl2⟩
        · exact Or.inl ⟨hba, fun y hy => by
            rcases List.mem_cons.mp hy with h | h
            · exact h ▸ hlt
            · exact hxs y h⟩
        · exact Or.inr ⟨x :: l1, l2, by rw [heq, List.cons_append], hl2⟩
    · obtain ⟨b, hfold, hxb, hall, hlast⟩ := ih x
      refine ⟨b, ?_, le_trans (le_of_not_lt hlt) hxb, ?_, ?_⟩
      · simpa [permutateMaxStep, hlt] using hfold
      · intro y hy
        rcases List.mem_cons.mp hy with h | h
        · exact h ▸ hxb
        · exact hall y h
      · rcases hlast with ⟨hbx, hxs⟩ | ⟨l1, l2, heq, hl2⟩
        · exact Or.inr ⟨[], xs, by rw [hbx, List.nil_append], hbx ▸ hxs⟩
        · exact Or.inr ⟨x :: l1, l2, by rw [heq, List.cons_append], hl2⟩

/-- Splitting a mapped list around a distinguished element lifts to a
splitting of the original list. -/
theorem map_eq_append_cons_split {α β : Type} (f : α → β) :
    ∀ (l : List α) (l1 : List β) (b : β) (l2 : List β),
      l.map f = l1 ++ b :: l2 →
      ∃ m1 x m2, l = m1 ++ x :: m2 ∧ f x = b ∧ m1.map f = l1 ∧ m2.map f = l2
  | [], l1, b, l2, h => by simp at h
  | x :: xs, [], b, l2, h => by
    simp only [List.map_cons, List.nil_append, List.cons.injEq] at h
    exact ⟨[], x, xs, by simp, h.1, rfl, h.2⟩
  | x :: xs, c :: l1, b, l2, h => by
    simp only [List.map_cons, List.cons_append, List.cons.injEq] at h
    obtain ⟨m1, y, m2, hsplit, hfy, hm1, hm2⟩ :=
      map_eq_append_cons_split f xs l1 b l2 h.2
    exact ⟨x :: m1, y, m2, by rw [hsplit, List.cons_append], hfy,
      by simp [hm1, h.1], hm2⟩

/-- Reduction of `Except` bind on a success value. -/
theorem exceptBind_ok {ε α β : Type} (a : α) (f : α → Except ε β) :
    (Except.ok a >>= f) = f a := rfl

/-- Reduction of `Except` bind on an error value. -/
theorem exceptBind_error {ε α β : Type} (e : ε) (f : α → Except ε β) :
    ((Except.error e : Except ε α) >>= f) = Except.error e := rfl

/-- `pure` on `Except` is `Except.ok`. -/
theorem exceptPure {ε α : Type} (a : α) :
    (pure a : Except ε α) = Except.ok a := rfl

/-- Reduction of `Except` map on a success value. -/
theorem exceptMap_ok {ε α β : Type} (f : α → β) (a : α) :
    (f <$> (Except.ok a : Except ε α)) = Except.ok (f a) := rfl

/-- Writing in place never changes the memory size. -/
theorem Memory.size_mk_set (m : Memory) (a : Address) (v : Value) :
    (Memory.mk (m.data.set a v)).size = m.size := by
  simp [Memory.size]

/-- Reading back the cell just written yields the written value. -/
theorem Memory.get_mk_set_self (m : Memory) (a : Address) (v : Value)
    (h : a < m.size) : (Memory.mk (m.data.set a v)).get a = .ok v := by
  have h' : a < m.data.length := h
  simp [Memory.get, Memory.size, h', List.getD_eq_getElem?_getD,
    List.getElem?_set_self]

/-- Reading any other cell is unaffected by a write. -/
theorem Memory.get_mk_set_ne (m : Memory) (a b : Address) (v : Value)
    (hab : a ≠ b) : (Memory.mk (m.data.set a v)).get b = m.get b := by
  by_cases h : b < m.size
  · simp only [Memory.get, Memory.size_mk_set, if_pos h]
    rw [List.getD_eq_getElem?_getD, List.getD_eq_getElem?_getD,
      List.getElem?_set_ne hab]
  · simp only [Memory.get, Memory.size_mk_set, if_neg h]

/-- A write inside the bounds succeeds and produces the updated list. -/
theorem Memory.set_ok (m : Memory) (a : Address) (v : Value)
    (h : a < m.size) : m.set a v = .ok ⟨m.data.set a v⟩ := by
  simp [Memory.set, h]

/-! ## Claims -/

/-- Claim C3 counterexample: on a 10-cell memory with in-bounds start
`a = 5` and `len = 2 ^ 64 - 3`, the `usize` addition `a + len` wraps to 2,
so `get_slice` aborts with a reversed-slice panic (`[5..2]`) instead of
returning the clamped window without failing, refuting the claim's
unconditional success for every `len` at an in-bounds start (a debug build
aborts at the same input with an overflow panic at the addition). -/
theorem c3_overflow_counterexample :
    5 < (Memory.mk [0, 1, 2, 3, 4, 5, 6, 7, 8, 9]).size ∧
    (Memory.mk [0, 1, 2, 3, 4, 5, 6, 7, 8, 9]).get_slice 5 (2 ^ 64 - 3) =
      .error (.sliceRangeReversed 5 2) :=
  ⟨by decide, rfl⟩

/-- Claim C3 (amended): for every `Memory` of length `L`, `get a` and
`set a v` fail with `OutOfBounds` exactly when `a ≥ L`; `get_slice a len`
fails with `OutOfBounds` exactly when the start `a ≥ L`; for `a < L`, when
the `usize` sum `a + len` does not overflow, `get_slice` returns the window
from `a` up to `min (a + len) L` without failing even when `a + len`
exceeds `L`, but when `a + len` overflows `usize` the call aborts with a
reversed-slice panic instead of returning a window. -/
theorem c3_bounds (m : Memory) (a : Address) (len : Nat) (v : Value) :
    (m.size ≤ a ↔ m.get a = .error (.outOfBounds a m.size)) ∧
    (m.size ≤ a ↔ m.set a v = .error (.outOfBounds a m.size)) ∧
    (m.size ≤ a ↔ m.get_slice a len = .error (.outOfBounds a m.size)) ∧
    (a < m.size → a + len < 2 ^ 64 →
      m.get_slice a len = .ok ((m.data.take (min (a + len) m.size)).drop a)) ∧
    (a < m.size → a < 2 ^ 64 → len < 2 ^ 64 → 2 ^ 64 ≤ a + len →
      m.get_slice a len =
        .error (.sliceRangeReversed a ((a + len) % 2 ^ 64))) := by
  by_cases h : a < m.size
  · have h' : ¬ m.size ≤ a := Nat.not_le.mpr h
    refine ⟨?_, ?_, ?_, ?_, ?_⟩
    · simp [Memory.get, h, h']
    · simp [Memory.set, h, h']
    · constructor
      · intro hle
        exact absurd hle h'
      · intro hc
        exfalso
        simp only [Memory.get_slice, if_pos h] at hc
        split at hc <;> simp at hc
    · intro _ hlt
      have hmod : (a + len) % 2 ^ 64 = a + len := Nat.mod_eq_of_lt hlt
      simp only [Memory.get_slice, hmod, if_pos h]
      rw [if_pos (le_min (Nat.le_add_right a len) (le_of_lt h)),
        List.drop_take]
    · intro _ ha64 hlen hov
      have hlt : a + len - 2 ^ 64 < 2 ^ 64 := by
        rw [tsub_lt_iff_right hov]
        exact Nat.add_lt_add ha64 hlen
      have hmod : (a + len) % 2 ^ 64 = a + len - 2 ^ 64 := by
        rw [Nat.mod_eq_sub_mod hov, Nat.mod_eq_of_lt hlt]
      have hws : a + len - 2 ^ 64 < a := by
        rw [tsub_lt_iff_left hov]
        exact lt_of_lt_of_le (Nat.add_lt_add_left hlen a)
          (le_of_eq (Nat.add_comm a (2 ^ 64)))
      have hmin : min (a + len - 2 ^ 64) m.size = a + len - 2 ^ 64 :=
        min_eq_left (hws.trans h).le
      simp only [Memory.get_slice, hmod, hmin]
      rw [if_pos h, if_neg (Nat.not_le.mpr hws)]
  · have h' : m.size ≤ a := Nat.not_lt.mp h
    refine ⟨?_, ?_, ?_, fun hc => absurd hc h, fun hc _ => absurd hc h⟩
    · simp [Memory.get, h, h']
    · simp [Memory.set, h, h']
    · simp [Memory.get_slice, h, h']

/-- Witness for C3 at `m = [7, 8]`, `a = 1`, `len = 5`: the start is in
bounds and the sum does not overflow, so the clamped window `[8]` is
returned without failing. -/
theorem c3_bounds_witness :
    (Memory.mk [7, 8]).get_slice 1 5 =
      .ok (([(7 : Value), 8].take (min (1 + 5) (Memory.mk [7, 8]).size)).drop 1) :=
  (c3_bounds ⟨[7, 8]⟩ 1 5 0).2.2.2.1 (by decide) (by norm_num)

/-- Claim C4: for every memory `m`, in-bounds address `a` and value `v`,
`set a v` succeeds, a subsequent `get a` returns `v`, and the size is
unchanged. -/
theorem c4_set_get (m : Memory) (a : Address) (v : Value)
    (h : a < m.size) :
    ∃ m', m.set a v = .ok m' ∧ m'.get a = .ok v ∧ m'.size = m.size :=
  ⟨⟨m.data.set a v⟩, Memory.set_ok m a v h, Memory.get_mk_set_self m a v h,
    Memory.size_mk_set m a v⟩

/-- Witness for C4 at `m = [1, 2, 3]`, `a = 1`, `v = 7`. -/
theorem c4_set_get_witness :
    ∃ m', (Memory.mk [1, 2, 3]).set 1 7 = .ok m' ∧ m'.get 1 = .ok 7 ∧
      m'.size = (Memory.mk [1, 2, 3]).size :=
  c4_set_get ⟨[1, 2, 3]⟩ 1 7 (by decide)

/-- Claim C1 counterexample: for the VM loaded with `[1, 0, 0, 0, 99]`, the
done flag is already `true` after exactly two `step()` calls (the program
takes one `Add` step and one `Halt` step), contradicting the claim that it
is still `false` then. -/
theorem c1_two_steps_done_counterexample :
    Vm.stepN 2 (Vm.new ⟨[1, 0, 0, 0, 99]⟩) =
      .ok { memory := ⟨[2, 0, 0, 0, 99]⟩, ip := 4, input := [], output := [],
            done := true } := rfl

/-- Claim C1 (amended): for the VM loaded with `[1, 0, 0, 0, 99]`, running
to completion yields memory `[2, 0, 0, 0, 99]`; after one `step()` the done
flag is still `false`, after two `step()` calls (and hence after any more)
it is `true`; and a further `step()` after Halt leaves memory, instruction
pointer and done flag unchanged (Halt is idempotent once reached). -/
theorem c1_halt_idempotent :
    (Vm.stepN 1 (Vm.new ⟨[1, 0, 0, 0, 99]⟩)).map Vm.done = .ok false ∧
    (Vm.stepN 2 (Vm.new ⟨[1, 0, 0, 0, 99]⟩)).map Vm.done = .ok true ∧
    Vm.run 10 (Vm.new ⟨[1, 0, 0, 0, 99]⟩) =
      .ok { memory := ⟨[2, 0, 0, 0, 99]⟩, ip := 4, input := [], output := [],
            done := true } ∧
    Vm.step { memory := ⟨[2, 0, 0, 0, 99]⟩, ip := 4, input := [],
              output := [], done := true } =
      .ok { memory := ⟨[2, 0, 0, 0, 99]⟩, ip := 4, input := [], output := [],
            done := true } :=
  ⟨rfl, rfl, rfl, rfl⟩

/-- Claim C2: for the VM loaded with `[3, 9, 8, 9, 10, 9, 4, 9, 99, -1, 8]`,
`run()` with input queue `[8]` terminates (the done flag is reached within
finite fuel) with output log exactly `[1]`, and with input queue `[5]` it
terminates with output log exactly `[0]`. -/
theorem c2_equals_program :
    (∃ fuel, (Vm.run fuel
        ((Vm.new ⟨[3, 9, 8, 9, 10, 9, 4, 9, 99, -1, 8]⟩).setInput [8])).map
        (fun vm => (vm.done, vm.output)) = .ok (true, [1])) ∧
    (∃ fuel, (Vm.run fuel
        ((Vm.new ⟨[3, 9, 8, 9, 10, 9, 4, 9, 99, -1, 8]⟩).setInput [5])).map
        (fun vm => (vm.done, vm.output)) = .ok (true, [0])) :=
  ⟨⟨10, rfl⟩, ⟨10, rfl⟩⟩

/-- Claim C5: with the operands fetched successfully, a taken
`JumpIfNotZero`/`JumpIfZero` sets the instruction pointer absolutely to the
second operand's fetched value (via the `as Address` cast, which is the
identity for in-range nonnegative values) and raises no error itself even
when that target is out of bounds; an out-of-bounds instruction pointer
only fails, with `OutOfBounds`, at the next fetch done by `step()`; a
not-taken jump advances the instruction pointer by exactly 3. -/
theorem c5_jump (vm : Vm) (p1 p2 : Param) (c t : Value)
    (h1 : p1.fetch vm.memory = .ok c) (h2 : p2.fetch vm.memory = .ok t) :
    (c ≠ 0 → (Instruction.jumpIfNotZero p1 p2).execute vm =
      .ok { vm with ip := asAddress t }) ∧
    (c = 0 → (Instruction.jumpIfZero p1 p2).execute vm =
      .ok { vm with ip := asAddress t }) ∧
    (c = 0 → (Instruction.jumpIfNotZero p1 p2).execute vm =
      .ok { vm with ip := vm.ip + 3 }) ∧
    (c ≠ 0 → (Instruction.jumpIfZero p1 p2).execute vm =
      .ok { vm with ip := vm.ip + 3 }) ∧
    (0 ≤ t → t < 2 ^ 64 → asAddress t = t.toNat) ∧
    (∀ w : Vm, w.memory.size ≤ w.ip →
      w.step = .error (.outOfBounds w.ip w.memory.size)) := by
  refine ⟨fun hc => ?_, fun hc => ?_, fun hc => ?_, fun hc => ?_,
    fun h0 hlt => ?_, fun w hw => ?_⟩
  · simp [Instruction.execute, h1, h2, hc, exceptBind_ok, exceptMap_ok]
  · simp [Instruction.execute, h1, h2, hc, exceptBind_ok, exceptMap_ok]
  · simp [Instruction.execute, h1, hc, exceptBind_ok, exceptPure]
  · simp [Instruction.execute, h1, hc, exceptBind_ok, exceptPure]
  · simp only [asAddress, Int.emod_eq_of_lt h0 hlt]
  · simp [Vm.step, Memory.get_slice, Nat.not_lt.mpr hw, exceptBind_error]

/-- Witness for C5: a taken `JumpIfNotZero` with immediate operands `1` and
`9` on a 1-cell memory jumps to 9 (far out of bounds) without an error. -/
theorem c5_jump_witness :
    (Instruction.jumpIfNotZero (.immediate 1) (.immediate 9)).execute
      (Vm.new ⟨[99]⟩) = .ok { Vm.new ⟨[99]⟩ with ip := asAddress 9 } :=
  (c5_jump (Vm.new ⟨[99]⟩) (.immediate 1) (.immediate 9) 1 9 rfl rfl).1
    (by decide)

/-- Claim C6 counterexample: decoding the unknown opcode 42 at instruction
address 0 and at instruction address 1 aborts with the *identical* error
value, so the `Unknown opcode {opcode}` diagnostic cannot name the
instruction's address. -/
theorem c6_error_lacks_address :
    Vm.step { memory := ⟨[42, 0, 0, 0]⟩, ip := 0, input := [], output := [],
              done := false } = .error (.unknownOpcode 42) ∧
    Vm.step { memory := ⟨[7, 42, 0, 0, 0]⟩, ip := 1, input := [],
              output := [], done := false } = .error (.unknownOpcode 42) :=
  ⟨rfl, rfl⟩

/-- Claim C6 (amended): decoding a window whose opcode (first cell modulo
100, truncated) is not one of 1–8 or 99 aborts with a fatal `UnknownOpcode`
error naming the offending opcode (though not the instruction's address);
the instruction is never silently skipped. -/
theorem c6_unknown_opcode (mem : List Value) (c0 : Value)
    (h0 : sliceGet mem 0 = .ok c0)
    (h : c0.tmod 100 ∉ ([1, 2, 3, 4, 5, 6, 7, 8, 99] : List Value)) :
    Instruction.parse mem = .error (.unknownOpcode (c0.tmod 100)) := by
  simp only [List.mem_cons, List.not_mem_nil, or_false, not_or] at h
  obtain ⟨n1, n2, n3, n4, n5, n6, n7, n8, n99⟩ := h
  simp [Instruction.parse, h0, n1, n2, n3, n4, n5, n6, n7, n8, n99,
    exceptBind_ok]

/-- Witness for C6 at the window `[42, 0, 0, 0]`. -/
theorem c6_unknown_opcode_witness :
    Instruction.parse [42, 0, 0, 0] =
      .error (.unknownOpcode ((42 : Value).tmod 100)) :=
  c6_unknown_opcode [42, 0, 0, 0] 42 rfl (by decide)

/-- Claim C7 counterexample: over the two permutations of `{0, 1}` with a
constant signal (a tie), `permutate_max` reports the *last* enumerated
permutation `[1, 0]`, not the first-found `[0, 1]`: the fold keeps the
accumulator only when the new thrust is strictly smaller. -/
theorem c7_tie_last_found :
    permutate (fun _ => (0 : Value)) [[0, 1], [1, 0]] =
      [([0, 1], 0), ([1, 0], 0)] ∧
    permutate_max (fun _ => (0 : Value)) [[0, 1], [1, 0]] =
      some ([1, 0], 0) :=
  ⟨rfl, rfl⟩

/-- Claim C7 (amended): over a nonempty enumeration of phase permutations,
`permutate_max` returns a permutation achieving the maximum final signal;
when several permutations achieve the same maximal signal, the
last-enumerated one (latest in the deterministic exploration order) is the
one reported. -/
theorem c7_max_last (signal : List Value → Value) (perms : List (List Value))
    (h : perms ≠ []) :
    ∃ p, permutate_max signal perms = some (p, signal p) ∧
      p ∈ perms ∧ (∀ q ∈ perms, signal q ≤ signal p) ∧
      ∃ l1 l2, perms = l1 ++ p :: l2 ∧ ∀ q ∈ l2, signal q < signal p := by
  obtain ⟨p0, rest, rfl⟩ := List.exists_cons_of_ne_nil h
  obtain ⟨b, hfold, hab, hall, hlast⟩ :=
    foldl_permutateMaxStep_spec (rest.map fun p => (p, signal p))
      (p0, signal p0)
  have hpm : permutate_max signal (p0 :: rest) = some b := by
    show ((p0 :: rest).map fun p => (p, signal p)).foldl
      permutateMaxStep none = some b
    rw [List.map_cons, List.foldl_cons]
    exact hfold
  rcases hlast with ⟨hba, hxs⟩ | ⟨l1, l2, heq, hl2⟩
  · refine ⟨p0, by rw [hpm, hba], List.mem_cons_self p0 rest, ?_,
      [], rest, rfl, ?_⟩
    · intro q hq
      rcases List.mem_cons.mp hq with rfl | hq
      · exact le_refl _
      · exact le_of_lt (hxs (q, signal q) (List.mem_map_of_mem _ hq))
    · intro q hq
      exact hxs (q, signal q) (List.mem_map_of_mem _ hq)
  · obtain ⟨m1, x, m2, hrest, hfx, hm1, hm2⟩ :=
      map_eq_append_cons_split _ rest l1 b l2 heq
    have hbx : b.2 = signal x := congrArg Prod.snd hfx.symm
    refine ⟨x, by rw [hpm]; exact congrArg some hfx.symm, ?_, ?_,
      p0 :: m1, m2, ?_, ?_⟩
    · rw [hrest]
      exact List.mem_cons_of_mem _ (by simp)
    · intro q hq
      rcases List.mem_cons.mp hq with rfl | hq
      · simpa [hbx] using hab
      · simpa [hbx] using hall (q, signal q) (List.mem_map_of_mem _ hq)
    · rw [hrest, List.cons_append]
    · intro q hq
      have hmem : (q, signal q) ∈ l2 := by
        rw [← hm2]
        exact List.mem_map_of_mem _ hq
      simpa [hbx] using hl2 _ hmem

/-- Witness for C7 over the enumeration `[[1], [2]]` with the list-sum as
signal: `[2]` is reported. -/
theorem c7_max_last_witness :
    ∃ p, permutate_max List.sum [[1], [2]] = some (p, p.sum) ∧
      p ∈ ([[1], [2]] : List (List Value)) ∧
      (∀ q ∈ ([[1], [2]] : List (List Value)), List.sum q ≤ p.sum) ∧
      ∃ l1 l2, ([[1], [2]] : List (List Value)) = l1 ++ p :: l2 ∧
        ∀ q ∈ l2, List.sum q < p.sum :=
  c7_max_last List.sum [[1], [2]] (by simp)

/-- Claim C8 counterexample: `noun(-1)` passes the range check (the code
only asserts `noun <= 99`, there is no lower bound) and writes `-1` into
address 1 instead of failing, although `-1` is outside `0..=99`. -/
theorem c8_negative_noun_accepted :
    (Vm.new ⟨[1, 0, 0, 99]⟩).noun (-1) =
      .ok { memory := ⟨[1, -1, 0, 99]⟩, ip := 0, input := [], output := [],
            done := false } ∧
    ¬ (0 ≤ (-1 : Value)) :=
  ⟨rfl, by decide⟩

/-- Claim C8 (amended): the noun/verb setters range-check only the upper
bound: for every `v ≤ 99` (negative values included) with the target
address in bounds, `noun v` writes `v` to address 1 (`verb v` to address 2)
changing no other cell and no other VM field, and every `v > 99` fails the
range check rather than being written. -/
theorem c8_noun_verb (vm : Vm) (v : Value) :
    (99 < v →
      vm.noun v = .error .assertFailed ∧ vm.verb v = .error .assertFailed) ∧
    (v ≤ 99 → 1 < vm.memory.size →
      ∃ vm', vm.noun v = .ok vm' ∧ vm'.memory.get 1 = .ok v ∧
        vm'.memory.size = vm.memory.size ∧
        (∀ a, a ≠ 1 → vm'.memory.get a = vm.memory.get a) ∧
        vm'.ip = vm.ip ∧ vm'.input = vm.input ∧
        vm'.output = vm.output ∧ vm'.done = vm.done) ∧
    (v ≤ 99 → 2 < vm.memory.size →
      ∃ vm', vm.verb v = .ok vm' ∧ vm'.memory.get 2 = .ok v ∧
        vm'.memory.size = vm.memory.size ∧
        (∀ a, a ≠ 2 → vm'.memory.get a = vm.memory.get a) ∧
        vm'.ip = vm.ip ∧ vm'.input = vm.input ∧
        vm'.output = vm.output ∧ vm'.done = vm.done) := by
  refine ⟨fun hgt => ?_, fun hle h1 => ?_, fun hle h2 => ?_⟩
  · have hn : ¬ v ≤ 99 := not_le.mpr hgt
    exact ⟨by simp [Vm.noun, hn], by simp [Vm.verb, hn]⟩
  · refine ⟨{ vm with memory := ⟨vm.memory.data.set 1 v⟩ }, ?_,
      Memory.get_mk_set_self vm.memory 1 v h1,
      Memory.size_mk_set vm.memory 1 v,
      fun a ha => Memory.get_mk_set_ne vm.memory 1 a v (fun hx => ha hx.symm),
      rfl, rfl, rfl, rfl⟩
    simp [Vm.noun, hle, Memory.set_ok vm.memory 1 v h1]
  · refine ⟨{ vm with memory := ⟨vm.memory.data.set 2 v⟩ }, ?_,
      Memory.get_mk_set_self vm.memory 2 v h2,
      Memory.size_mk_set vm.memory 2 v,
      fun a ha => Memory.get_mk_set_ne vm.memory 2 a v (fun hx => ha hx.symm),
      rfl, rfl, rfl, rfl⟩
    simp [Vm.verb, hle, Memory.set_ok vm.memory 2 v h2]

/-- Witness for C8 at a 4-cell memory with `v = 7` (in range) for the
success case. -/
theorem c8_noun_verb_witness :
    ∃ vm', (Vm.new ⟨[1, 0, 0, 99]⟩).noun 7 = .ok vm' ∧
      vm'.memory.get 1 = .ok 7 ∧
      vm'.memory.size = (Vm.new ⟨[1, 0, 0, 99]⟩).memory.size ∧
      (∀ a, a ≠ 1 →
        vm'.memory.get a = (Vm.new ⟨[1, 0, 0, 99]⟩).memory.get a) ∧
      vm'.ip = (Vm.new ⟨[1, 0, 0, 99]⟩).ip ∧
      vm'.input = (Vm.new ⟨[1, 0, 0, 99]⟩).input ∧
      vm'.output = (Vm.new ⟨[1, 0, 0, 99]⟩).output ∧
      vm'.done = (Vm.new ⟨[1, 0, 0, 99]⟩).done :=
  (c8_noun_verb (Vm.new ⟨[1, 0, 0, 99]⟩) 7).2.1 (by decide) (by decide)

/-- Claim C10: the synchronous VM's input setter replaces any previously
supplied input rather than appending: the queue is cleared before the new
values are added, so afterwards the pending input queue equals exactly the
given values, and no other VM field changes. -/
theorem c10_input_replaces (vm : Vm) (values : List Value) :
    (vm.setInput values).input = values ∧
    (vm.setInput values).memory = vm.memory ∧
    (vm.setInput values).ip = vm.ip ∧
    (vm.setInput values).output = vm.output ∧
    (vm.setInput values).done = vm.done :=
  ⟨rfl, rfl, rfl, rfl, rfl⟩

end Intcode
